import Mathlib

/-!
Shallow embedding of the Translation Alien session core (`src/app.py`):
the bidirectional lexicon (`build_reverse_dictionary`, the two translator
queries), the Recognition stage state machine (`RecognitionFrame`), and the
Translation stage state machine (`TranslationFrame`).

Strings are modelled as `List Char`.  Python's `str.strip` / `str.lower`
are modelled for the ASCII range (`pyStrip`, `pyLower`); Python dicts are
modelled as ordered association lists with dict-update insertion
(`dinsert`) and first-match lookup (`dget`).  An operation that can raise
across the core boundary returns `AppState × Option PyErr`; Python
mutations performed before a raise persist in the returned state, exactly
as they do on the shared `GameState` object.
-/

abbrev Str := List Char

/-- ASCII whitespace codepoints recognised by Python's `str.strip()`:
space, tab, newline, carriage return, vertical tab, form feed. -/
def pyIsSpaceNat (n : Nat) : Bool :=
  n = 32 || n = 9 || n = 10 || n = 13 || n = 11 || n = 12

/-- ASCII whitespace recognised by Python's `str.strip()`. -/
def pyIsSpace (c : Char) : Bool := pyIsSpaceNat c.toNat

/-- ASCII case-folding of a single character, as in Python's `str.lower`. -/
def pyLowerChar (c : Char) : Char :=
  if 65 ≤ c.toNat ∧ c.toNat ≤ 90 then Char.ofNat (c.toNat + 32) else c

/-- ASCII upper-casing of a single character, as in Python's `str.upper`. -/
def pyUpperChar (c : Char) : Char :=
  if 97 ≤ c.toNat ∧ c.toNat ≤ 122 then Char.ofNat (c.toNat - 32) else c

/-- `s.strip()`: drop leading and trailing whitespace. -/
def pyStrip (s : Str) : Str :=
  ((s.dropWhile pyIsSpace).reverse.dropWhile pyIsSpace).reverse

/-- `s.lower()` (ASCII fragment). -/
def pyLower (s : Str) : Str := s.map pyLowerChar

/-- `s.upper()` (ASCII fragment). -/
def pyUpper (s : Str) : Str := s.map pyUpperChar

/-- A Python dict with `Str` keys and values: an ordered association list. -/
abbrev Dict := List (Str × Str)

/-- `d.get(k)`: first-match lookup (keys are unique in a real dict). -/
def dget : Dict → Str → Option Str
  | [], _ => none
  | (k, v) :: rest, q => if k = q then some v else dget rest q

/-- `d[k] = v`: overwrite the value in place if the key exists, else append. -/
def dinsert (m : Dict) (k v : Str) : Dict :=
  if m.any (fun p => p.1 = k) then
    m.map (fun p => if p.1 = k then (k, v) else p)
  else m ++ [(k, v)]

/-- `build_reverse_dictionary` (src/app.py lines 31-35): one pass over the
forward entries in stored order, inserting glyphs → french. -/
def build_reverse_dictionary (dictionary : Dict) : Dict :=
  dictionary.foldl (fun reverse p => dinsert reverse p.2 p.1) []

/-- `RecognitionChoice` dataclass. -/
structure RecognitionChoice where
  round_index : Nat
  selection : Str
deriving DecidableEq, Repr

/-- `TranslationAttempt` dataclass. -/
structure TranslationAttempt where
  french_word : Str
  typed_glyphs : Str
deriving DecidableEq, Repr

/-- The frame names registered in `TranslationAlienApp.frames`. -/
inductive FrameName where
  | start
  | recognition
  | translation
  | translator
deriving DecidableEq, Repr

/-- Exceptions that can escape a core operation. -/
inductive PyErr where
  | indexError
deriving DecidableEq, Repr

/-- The shared `GameState` plus the per-frame widget state the core logic
reads and writes (`selection_var`, button enablement, `index`, entry
variables), plus which frame is currently raised. -/
structure AppState where
  rounds : List (List Str)
  practiceWords : List Str
  dictionary : Dict
  recognitionChoices : List RecognitionChoice
  translationAttempts : List TranslationAttempt
  currentRound : Nat
  selectionVar : Str
  nextEnabled : Bool
  transIndex : Nat
  transInput : Str
  customVar : Str
  frenchVar : Str
  feedbackVar : Str
  frame : FrameName
deriving DecidableEq, Repr

/-- The `"Aucun"` sentinel recorded for "no symbol recognized". -/
def noneSentinel : Str := "Aucun".data

/-- `RecognitionFrame.render_round`: re-reads the current round's symbols
(`recognition_rounds[current_round]` raises IndexError when out of range;
the label update before the subscript touches no core state), clears the
pending selection and disables the Next button. -/
def render_round (st : AppState) : AppState × Option PyErr :=
  match st.rounds.get? st.currentRound with
  | none => (st, some PyErr.indexError)
  | some _ => ({ st with selectionVar := [], nextEnabled := false }, none)

/-- `RecognitionFrame.on_show`: clear the recognition history, clear the
pending selection, reset to round 0 and render it. -/
def recognition_on_show (st : AppState) : AppState × Option PyErr :=
  render_round { st with
    recognitionChoices := [], selectionVar := [], currentRound := 0 }

/-- `RecognitionFrame.record_choice`: set the pending selection and enable
the Next button. -/
def record_choice (st : AppState) (selection : Str) : AppState :=
  { st with selectionVar := selection, nextEnabled := true }

/-- `TranslatorFrame.on_show`: `populate_summary` only reads the history;
the three entry/feedback variables are cleared. -/
def translator_on_show (st : AppState) : AppState :=
  { st with customVar := [], frenchVar := [], feedbackVar := [] }

/-- `show_frame("translator")`: run `on_show`, then raise the frame. -/
def show_translator (st : AppState) : AppState :=
  { translator_on_show st with frame := FrameName.translator }

/-- `TranslationFrame.load_prompt`: past the end of the practice words,
hand off to the translator frame; otherwise clear the entry text. -/
def load_prompt (st : AppState) : AppState :=
  if st.practiceWords.length ≤ st.transIndex then show_translator st
  else { st with transInput := [] }

/-- `TranslationFrame.on_show`: reset the word index, clear the attempts,
load the first prompt, clear the entry text. -/
def translation_on_show (st : AppState) : AppState :=
  { load_prompt { st with transIndex := 0, translationAttempts := [] }
      with transInput := [] }

/-- `show_frame("translation")`: run `on_show`, then raise the frame. -/
def show_translation (st : AppState) : AppState :=
  { translation_on_show st with frame := FrameName.translation }

/-- `show_frame("recognition")`: run `on_show`; the frame is raised only
when `on_show` returns without raising. -/
def show_recognition (st : AppState) : AppState × Option PyErr :=
  match recognition_on_show st with
  | (st', none) => ({ st' with frame := FrameName.recognition }, none)
  | (st', some e) => (st', some e)

/-- `RecognitionFrame.next_round`: append a choice carrying the 1-based
round index and the pending selection (an empty string falls back to the
`"Aucun"` sentinel), then either hand off to the Translation stage or
advance to the next round. -/
def next_round (st : AppState) : AppState × Option PyErr :=
  let selection := if st.selectionVar = [] then noneSentinel else st.selectionVar
  let st' := { st with recognitionChoices :=
    st.recognitionChoices ++
      [{ round_index := st.currentRound + 1, selection := selection }] }
  if st.rounds.length ≤ st.currentRound + 1 then (show_translation st', none)
  else render_round { st' with currentRound := st.currentRound + 1 }

/-- Clicking the Next button: `next_round` runs only while the button is
in the NORMAL state (it starts DISABLED, `render_round` disables it and
only `record_choice` enables it). -/
def click_next (st : AppState) : AppState × Option PyErr :=
  if st.nextEnabled then next_round st else (st, none)

/-- `TranslationFrame.submit`: past the end, hand off to the translator
frame without recording; otherwise record the trimmed entry text against
the current practice word, advance the index and load the next prompt. -/
def submit (st : AppState) : AppState :=
  if st.practiceWords.length ≤ st.transIndex then show_translator st
  else
    load_prompt { st with
      translationAttempts := st.translationAttempts ++
        [{ french_word := st.practiceWords.getD st.transIndex [],
           typed_glyphs := pyStrip st.transInput }],
      transIndex := st.transIndex + 1 }

/-- The discriminated outcome of a translator query. -/
inductive LookupResult where
  | success (value : Str)
  | emptyInput
  | noMatch
deriving DecidableEq, Repr

/-- Core of `TranslatorFrame.translate_custom` (glyphs → french): trim the
query, fail on empty input, rebuild the reverse dictionary, look the query
up, and treat a falsy value (missing key or empty string) as a miss. -/
def translate_custom_result (dictionary : Dict) (input : Str) : LookupResult :=
  let glyphs := pyStrip input
  if glyphs = [] then LookupResult.emptyInput
  else
    match dget (build_reverse_dictionary dictionary) glyphs with
    | some french =>
        if french = [] then LookupResult.noMatch else LookupResult.success french
    | none => LookupResult.noMatch

/-- Core of `TranslatorFrame.translate_french` (french → glyphs): trim and
lower-case the query, fail on empty input, look it up in the forward
dictionary, and treat a falsy value as a miss. -/
def translate_french_result (dictionary : Dict) (input : Str) : LookupResult :=
  let french := pyLower (pyStrip input)
  if french = [] then LookupResult.emptyInput
  else
    match dget dictionary french with
    | some glyphs =>
        if glyphs = [] then LookupResult.noMatch else LookupResult.success glyphs
    | none => LookupResult.noMatch

def msgEmptyGlyphs : Str := "Saisissez un mot en glyphes.".data

def msgNoMatchGlyphs : Str :=
  "Aucune correspondance trouvée dans la liste fournie.".data

def msgEmptyFrench : Str := "Saisissez un mot français.".data

def msgNoMatchFrench : Str :=
  "Ce mot n\x27est pas dans la liste fournie.".data

/-- Feedback text shown for a lookup outcome. -/
def renderFeedback (emptyMsg missMsg : Str) : LookupResult → Str
  | LookupResult.success v => "→ ".data ++ v
  | LookupResult.emptyInput => emptyMsg
  | LookupResult.noMatch => missMsg

/-- `TranslatorFrame.translate_custom`: set the feedback label. -/
def translate_custom (st : AppState) : AppState :=
  { st with feedbackVar := (renderFeedback msgEmptyGlyphs msgNoMatchGlyphs
      (translate_custom_result st.dictionary st.customVar)) }

/-- `TranslatorFrame.translate_french`: set the feedback label. -/
def translate_french (st : AppState) : AppState :=
  { st with feedbackVar := (renderFeedback msgEmptyFrench msgNoMatchFrench
      (translate_french_result st.dictionary st.frenchVar)) }

/-- A fresh app state over the given configuration, with all widget state
at its initial value, as built by `TranslationAlienApp.__init__`. -/
def baseState (rounds : List (List Str)) (words : List Str) (d : Dict) : AppState :=
  { rounds := rounds, practiceWords := words, dictionary := d,
    recognitionChoices := [], translationAttempts := [],
    currentRound := 0, selectionVar := [], nextEnabled := false,
    transIndex := 0, transInput := [], customVar := [], frenchVar := [],
    feedbackVar := [], frame := FrameName.start }

/-- C9: re-activating the Recognition stage resets exactly that stage's
portion of the history: the choice list becomes empty and the round index
returns to 0, while the translation attempts are untouched (this holds on
the raising path too, since the clearing happens before the subscript). -/
theorem recognition_reentry_resets_only_recognition (st : AppState) :
    (recognition_on_show st).1.recognitionChoices = [] ∧
    (recognition_on_show st).1.currentRound = 0 ∧
    (recognition_on_show st).1.translationAttempts = st.translationAttempts := by
  unfold recognition_on_show render_round
  rcases h : st.rounds.get? 0 with _ | opts <;> simp [h]

/-- C8: submitting when the word index is already past the end of the
practice list records nothing and hands off to the Translator frame. -/
theorem submit_past_end_is_noop_transition (st : AppState)
    (h : st.practiceWords.length ≤ st.transIndex) :
    submit st = show_translator st ∧
    (submit st).translationAttempts = st.translationAttempts ∧
    (submit st).transIndex = st.transIndex ∧
    (submit st).frame = FrameName.translator := by
  simp [submit, h, show_translator, translator_on_show]

theorem submit_past_end_is_noop_transition_witness :
    submit (baseState [] [] []) = show_translator (baseState [] [] []) ∧
    (submit (baseState [] [] [])).translationAttempts = [] ∧
    (submit (baseState [] [] [])).transIndex = 0 ∧
    (submit (baseState [] [] [])).frame = FrameName.translator :=
  submit_past_end_is_noop_transition (baseState [] [] []) (by decide)

/-- C1: a freshly rendered round has the Next button disabled and no
pending selection, and clicking Next while the button is disabled is a
no-op: the choice history length and the round index are unchanged (in
fact the whole state is unchanged and nothing is raised). -/
theorem advance_without_selection_is_noop :
    (∀ st st' : AppState, render_round st = (st', none) →
      st'.nextEnabled = false ∧ st'.selectionVar = []) ∧
    (∀ st : AppState, st.nextEnabled = false →
      (click_next st).1.recognitionChoices.length = st.recognitionChoices.length ∧
      (click_next st).1.currentRound = st.currentRound ∧
      click_next st = (st, none)) := by
  constructor
  · intro st st' h
    unfold render_round at h
    rcases hr : st.rounds.get? st.currentRound with _ | opts <;> rw [hr] at h
    · simp at h
    · injection h with h1 h2
      rw [← h1]
      exact ⟨rfl, rfl⟩
  · intro st h
    simp [click_next, h]

theorem advance_without_selection_is_noop_witness :
    ((render_round (baseState [[['a']]] [] [])).1.nextEnabled = false ∧
      (render_round (baseState [[['a']]] [] [])).1.selectionVar = []) ∧
    click_next (baseState [[['a']]] [] []) = (baseState [[['a']]] [] [], none) :=
  ⟨advance_without_selection_is_noop.1 (baseState [[['a']]] [] [])
      (render_round (baseState [[['a']]] [] [])).1 (by decide),
    (advance_without_selection_is_noop.2 (baseState [[['a']]] [] []) (by decide)).2.2⟩

/-- C4: a query that is empty after trimming yields `EmptyInput` in both
directions; a trimmed non-empty query with no dictionary entry yields the
distinct `NoMatch` result in both directions. -/
theorem translator_empty_input_and_no_match (d : Dict) (s : Str) :
    (pyStrip s = [] →
      translate_french_result d s = LookupResult.emptyInput ∧
      translate_custom_result d s = LookupResult.emptyInput) ∧
    (pyStrip s ≠ [] → dget d (pyLower (pyStrip s)) = none →
      translate_french_result d s = LookupResult.noMatch) ∧
    (pyStrip s ≠ [] → dget (build_reverse_dictionary d) (pyStrip s) = none →
      translate_custom_result d s = LookupResult.noMatch) ∧
    LookupResult.noMatch ≠ LookupResult.emptyInput := by
  refine ⟨fun h => ?_, fun h hm => ?_, fun h hm => ?_, by simp⟩
  · simp [translate_french_result, translate_custom_result, h, pyLower]
  · have hne : pyLower (pyStrip s) ≠ [] := by
      simpa [pyLower] using h
    unfold translate_french_result
    rw [if_neg hne, hm]
  · unfold translate_custom_result
    rw [if_neg h, hm]

theorem translator_empty_input_and_no_match_witness :
    (translate_french_result [("ab".data, "cd".data)] "   ".data =
        LookupResult.emptyInput ∧
      translate_custom_result [("ab".data, "cd".data)] "   ".data =
        LookupResult.emptyInput) ∧
    translate_french_result [("ab".data, "cd".data)] " zz ".data =
      LookupResult.noMatch ∧
    translate_custom_result [("ab".data, "cd".data)] " zz ".data =
      LookupResult.noMatch :=
  ⟨(translator_empty_input_and_no_match [("ab".data, "cd".data)] "   ".data).1
      (by decide),
    (translator_empty_input_and_no_match [("ab".data, "cd".data)] " zz ".data).2.1
      (by decide) (by decide),
    (translator_empty_input_and_no_match [("ab".data, "cd".data)] " zz ".data).2.2.1
      (by decide) (by decide)⟩

/-- C10: success is decided by truthiness of the looked-up value, so an
entry whose value is the empty string is reported as a miss, in both the
forward and the reverse direction. -/
theorem empty_value_reported_as_miss (d : Dict) (w g : Str) :
    (pyStrip w ≠ [] → dget d (pyLower (pyStrip w)) = some [] →
      translate_french_result d w = LookupResult.noMatch) ∧
    (pyStrip g ≠ [] → dget (build_reverse_dictionary d) (pyStrip g) = some [] →
      translate_custom_result d g = LookupResult.noMatch) := by
  constructor
  · intro h hm
    have hne : pyLower (pyStrip w) ≠ [] := by
      simpa [pyLower] using h
    unfold translate_french_result
    rw [if_neg hne, hm]
    simp
  · intro h hm
    unfold translate_custom_result
    rw [if_neg h, hm]
    simp

theorem empty_value_reported_as_miss_witness :
    translate_french_result [([], "gg".data), ("mot".data, [])] "mot".data =
      LookupResult.noMatch ∧
    translate_custom_result [([], "gg".data), ("mot".data, [])] "gg".data =
      LookupResult.noMatch :=
  ⟨(empty_value_reported_as_miss [([], "gg".data), ("mot".data, [])]
      "mot".data "gg".data).1 (by decide) (by decide),
    (empty_value_reported_as_miss [([], "gg".data), ("mot".data, [])]
      "mot".data "gg".data).2 (by decide) (by decide)⟩

/-- C3 (counterexample): entering the Recognition stage with an empty
configured rounds list raises an IndexError across the core boundary
(the subscript `recognition_rounds[0]` in `render_round`), contradicting
the claim that no core operation ever raises. -/
theorem recognition_entry_raises_on_empty_rounds :
    (show_recognition (baseState [] [] [])).2 = some PyErr.indexError := by
  decide

/-- C3 (amended): Recognition entry raises exactly when the configured
rounds list is empty; advancing never raises, and the translator lookups
and translation-stage operations are total functions whose failures are
the result values `EmptyInput` and `NoMatch`. -/
theorem core_raises_only_on_empty_rounds_entry (st : AppState) :
    ((show_recognition st).2 =
      if st.rounds = [] then some PyErr.indexError else none) ∧
    ((recognition_on_show st).2 =
      if st.rounds = [] then some PyErr.indexError else none) ∧
    (click_next st).2 = none := by
  have hrec : (recognition_on_show st).2 =
      if st.rounds = [] then some PyErr.indexError else none := by
    unfold recognition_on_show render_round
    rcases hr : st.rounds.get? 0 with _ | opts
    · simp at hr
      simp [hr]
    · have : st.rounds ≠ [] := by
        intro hnil
        rw [hnil] at hr
        simp at hr
      simp [hr, this]
  refine ⟨?_, hrec, ?_⟩
  · unfold show_recognition
    rcases h : recognition_on_show st with ⟨st', e⟩
    have := hrec
    rw [h] at this
    cases e <;> simp [← this]
  · unfold click_next next_round render_round
    rcases h : st.nextEnabled with _ | _
    · simp
    · simp only [if_true]
      by_cases hlen : st.rounds.length ≤ st.currentRound + 1
      · simp [hlen]
      · have hlt : st.currentRound + 1 < st.rounds.length := by omega
        rcases hg : st.rounds.get? (st.currentRound + 1) with _ | opts
        · rw [List.get?_eq_none] at hg
          omega
        · simp [hlen, hg]

theorem dget_cons (x : Str × Str) (rest : Dict) (q : Str) :
    dget (x :: rest) q = if x.1 = q then some x.2 else dget rest q := rfl

theorem dget_eq_none_of_any_eq_false (m : Dict) (k : Str)
    (h : m.any (fun p => p.1 = k) = false) : dget m k = none := by
  induction m with
  | nil => rfl
  | cons x rest ih =>
    simp only [List.any_cons, Bool.or_eq_false_iff] at h
    have hx : ¬ x.1 = k := by
      intro he
      simp [he] at h
    rw [dget_cons, if_neg hx]
    exact ih h.2

theorem dget_append (m₁ m₂ : Dict) (q : Str) :
    dget (m₁ ++ m₂) q =
      if (dget m₁ q).isSome then dget m₁ q else dget m₂ q := by
  induction m₁ with
  | nil => simp [dget]
  | cons x rest ih =>
    rw [List.cons_append, dget_cons, dget_cons]
    by_cases hk : x.1 = q
    · rw [if_pos hk, if_pos hk]
      simp
    · rw [if_neg hk, if_neg hk, ih]

theorem dget_map_overwrite (k v q : Str) (m : Dict) :
    dget (m.map (fun p => if p.1 = k then (k, v) else p)) q =
      if q = k then (if m.any (fun p => p.1 = k) then some v else none)
      else dget m q := by
  induction m with
  | nil => by_cases hq : q = k <;> simp [dget, hq]
  | cons x rest ih =>
    simp only [List.map_cons, List.any_cons, dget_cons]
    by_cases hxk : x.1 = k <;> by_cases hq : q = k
    · subst hq
      simp [hxk, ih]
    · have hkq : ¬ k = q := fun he => hq he.symm
      simp [hxk, hq, hkq, ih]
    · subst hq
      simp [hxk, ih]
      rw [decide_eq_false hxk, Bool.false_or]
    · by_cases hxq : x.1 = q <;> simp [hxk, hq, hxq, ih]

/-- Lookup after a dict-style insertion: the inserted key now maps to the
new value and every other key is untouched. -/
theorem dget_dinsert (m : Dict) (k v q : Str) :
    dget (dinsert m k v) q = if q = k then some v else dget m q := by
  by_cases ha : m.any (fun p => p.1 = k) = true
  · rw [dinsert, if_pos ha, dget_map_overwrite, if_pos ha]
  · have ha' : m.any (fun p => p.1 = k) = false := by
      cases h : m.any (fun p => p.1 = k)
      · rfl
      · exact absurd h ha
    rw [dinsert, if_neg ha, dget_append]
    by_cases hq : q = k
    · subst hq
      rw [dget_eq_none_of_any_eq_false m q ha']
      simp [dget]
    · have hkq : ¬ k = q := fun he => hq he.symm
      cases hdm : dget m q <;> simp [hdm, dget, hkq, hq]

theorem dget_foldl_dinsert (items : Dict) : ∀ (acc : Dict) (g : Str),
    dget (items.foldl (fun a p => dinsert a p.2 p.1) acc) g =
      match (items.filter (fun p => p.2 = g)).getLast? with
      | some p => some p.1
      | none => dget acc g := by
  induction items with
  | nil =>
    intro acc g
    simp
  | cons x rest ih =>
    intro acc g
    rw [List.foldl_cons, ih (dinsert acc x.2 x.1) g, dget_dinsert]
    by_cases hx : x.2 = g
    · subst hx
      rw [List.filter_cons_of_pos (by simp)]
      rcases hf : rest.filter (fun p => p.2 = x.2) with _ | ⟨y, l⟩
      · rw [hf]
        simp
      · rw [hf, List.getLast?_cons_cons]
        rcases hp : (y :: l).getLast? with _ | p
        · exact absurd (List.getLast?_eq_none_iff.mp hp) (by simp)
        · simp
    · rw [List.filter_cons_of_neg (by simpa using hx)]
      have hgx : ¬ g = x.2 := fun he => hx he.symm
      rcases hf : rest.filter (fun p => p.2 = g) with _ | ⟨y, l⟩
      · rw [hf]
        simp [hgx]
      · rw [hf]
        rcases hp : (y :: l).getLast? with _ | p <;> simp [hgx]

theorem keys_dinsert (m : Dict) (k v : Str) :
    (dinsert m k v).map Prod.fst =
      if m.any (fun p => p.1 = k) then m.map Prod.fst
      else m.map Prod.fst ++ [k] := by
  by_cases ha : m.any (fun p => p.1 = k) = true
  · rw [dinsert, if_pos ha, if_pos ha, List.map_map]
    congr 1
    funext p
    by_cases hp : p.1 = k <;> simp [hp, Function.comp]
  · rw [dinsert, if_neg ha, if_neg ha]
    simp

theorem nodup_keys_dinsert (m : Dict) (k v : Str)
    (h : (m.map Prod.fst).Nodup) : ((dinsert m k v).map Prod.fst).Nodup := by
  rw [keys_dinsert]
  by_cases ha : m.any (fun p => p.1 = k) = true
  · rw [if_pos ha]
    exact h
  · rw [if_neg ha]
    have hnotin : k ∉ m.map Prod.fst := by
      intro hmem
      rcases List.mem_map.mp hmem with ⟨p, hp, hpk⟩
      exact ha (List.any_eq_true.mpr ⟨p, hp, by simp [hpk]⟩)
    simp [List.nodup_append, h, hnotin]

theorem nodup_keys_foldl_dinsert (items : Dict) : ∀ acc : Dict,
    (acc.map Prod.fst).Nodup →
    ((items.foldl (fun a p => dinsert a p.2 p.1) acc).map Prod.fst).Nodup := by
  induction items with
  | nil =>
    intro acc h
    simpa using h
  | cons x rest ih =>
    intro acc h
    exact ih (dinsert acc x.2 x.1) (nodup_keys_dinsert acc x.2 x.1 h)

/-- C6: the reverse dictionary is built by one left-to-right pass over the
forward entries in stored order; looking up a glyph-string returns the
word of the last forward entry carrying that glyph-string (last-write-wins,
`none` when no entry carries it), and the reverse map holds at most one
entry per glyph-string (its key list has no duplicates). -/
theorem build_reverse_last_write_wins (d : Dict) (g : Str) :
    dget (build_reverse_dictionary d) g =
      Option.map Prod.fst ((d.filter (fun p => p.2 = g)).getLast?) ∧
    ((build_reverse_dictionary d).map Prod.fst).Nodup := by
  constructor
  · rw [build_reverse_dictionary, dget_foldl_dinsert]
    rcases hf : (d.filter (fun p => p.2 = g)).getLast? with _ | p <;>
      simp [hf, dget]
  · exact nodup_keys_foldl_dinsert d [] (by simp)

/-- One pass of user actions over the Translation stage: for each input in
order, type it into the entry and press Valider (`submit`). -/
def run_submits (st : AppState) (inputs : List Str) : AppState :=
  inputs.foldl (fun s inp => submit { s with transInput := inp }) st

theorem submit_step (st : AppState)
    (h : st.transIndex < st.practiceWords.length) :
    (submit st).translationAttempts = st.translationAttempts ++
        [{ french_word := st.practiceWords.getD st.transIndex [],
           typed_glyphs := pyStrip st.transInput }] ∧
    (submit st).practiceWords = st.practiceWords ∧
    (submit st).transIndex = st.transIndex + 1 := by
  have hn : ¬ st.practiceWords.length ≤ st.transIndex := Nat.not_le.mpr h
  by_cases h2 : st.practiceWords.length ≤ st.transIndex + 1 <;>
    simp [submit, load_prompt, show_translator, translator_on_show, hn, h2]

theorem run_submits_general (inputs : List Str) : ∀ st : AppState,
    st.transIndex + inputs.length ≤ st.practiceWords.length →
    (run_submits st inputs).translationAttempts =
      st.translationAttempts ++
        List.zipWith
          (fun w inp =>
            { french_word := w, typed_glyphs := pyStrip inp : TranslationAttempt })
          (st.practiceWords.drop st.transIndex) inputs ∧
    (run_submits st inputs).practiceWords = st.practiceWords ∧
    (run_submits st inputs).transIndex = st.transIndex + inputs.length := by
  induction inputs with
  | nil =>
    intro st h
    simp [run_submits]
  | cons inp rest ih =>
    intro st h
    have hlt : st.transIndex < st.practiceWords.length := by
      simp only [List.length_cons] at h
      omega
    obtain ⟨ha, hw, hi⟩ :=
      submit_step { st with transInput := inp } (by simpa using hlt)
    have hrest : (submit { st with transInput := inp }).transIndex + rest.length ≤
        (submit { st with transInput := inp }).practiceWords.length := by
      rw [hi, hw]
      simp only [List.length_cons] at h
      show st.transIndex + 1 + rest.length ≤ st.practiceWords.length
      omega
    obtain ⟨ha2, hw2, hi2⟩ := ih (submit { st with transInput := inp }) hrest
    have hfold : run_submits st (inp :: rest) =
        run_submits (submit { st with transInput := inp }) rest := rfl
    refine ⟨?_, ?_, ?_⟩
    · rw [hfold, ha2, ha, hw, hi]
      simp only
      rw [List.drop_eq_getElem_cons hlt, List.zipWith_cons_cons, List.append_assoc,
        List.singleton_append]
      congr 2
      rw [List.getD_eq_getElem?_getD, List.getElem?_eq_getElem hlt]
      rfl
    · rw [hfold, hw2, hw]
    · rw [hfold, hi2, hi]
      show st.transIndex + 1 + rest.length = st.transIndex + (rest.length + 1)
      omega

theorem show_translation_fields (st : AppState) :
    (show_translation st).transIndex = 0 ∧
    (show_translation st).translationAttempts = [] ∧
    (show_translation st).practiceWords = st.practiceWords := by
  by_cases h : st.practiceWords.length ≤ 0 <;>
    simp [show_translation, translation_on_show, load_prompt, show_translator,
      translator_on_show, h]

/-- C7: entering the Translation stage and submitting one input per
practice word records exactly one attempt per word, in order: the i-th
attempt pairs the i-th practice word with the i-th input trimmed of
leading/trailing whitespace (the empty string included). -/
theorem translation_records_all_attempts (base : AppState) (inputs : List Str)
    (h : inputs.length = base.practiceWords.length) :
    (run_submits (show_translation base) inputs).translationAttempts.length =
      inputs.length ∧
    ∀ i (hi : i <
        (run_submits (show_translation base) inputs).translationAttempts.length),
      ((run_submits (show_translation base) inputs).translationAttempts.get
          ⟨i, hi⟩).french_word = base.practiceWords.getD i [] ∧
      ((run_submits (show_translation base) inputs).translationAttempts.get
          ⟨i, hi⟩).typed_glyphs = pyStrip (inputs.getD i []) := by
  obtain ⟨h0, hA, hW⟩ := show_translation_fields base
  obtain ⟨ha, hw, hi⟩ := run_submits_general inputs (show_translation base)
    (by rw [h0, hW]; omega)
  rw [ha, hA, hW, h0, List.drop_zero, List.nil_append]
  have hlen : (List.zipWith
      (fun w inp =>
        { french_word := w, typed_glyphs := pyStrip inp : TranslationAttempt })
      base.practiceWords inputs).length = inputs.length := by
    rw [List.length_zipWith]
    omega
  refine ⟨hlen, ?_⟩
  intro i hilt
  have hi2 : i < inputs.length := by rwa [hlen] at hilt
  have hi3 : i < base.practiceWords.length := by omega
  rw [List.get_zipWith]
  constructor
  · simp only
    rw [List.getD_eq_getElem?_getD, List.getElem?_eq_getElem hi3]
    rfl
  · simp only
    rw [List.getD_eq_getElem?_getD, List.getElem?_eq_getElem hi2]
    rfl

theorem translation_records_all_attempts_witness :
    (run_submits (show_translation
        (baseState [] ["ab".data, "cd".data] [])) [" x ".data, [] ]).translationAttempts.length =
      2 ∧
    ((run_submits (show_translation
        (baseState [] ["ab".data, "cd".data] [])) [" x ".data, [] ]).translationAttempts.get
      ⟨0, by decide⟩).french_word = "ab".data :=
  ⟨(translation_records_all_attempts
      (baseState [] ["ab".data, "cd".data] []) [" x ".data, [] ] (by decide)).1,
    ((translation_records_all_attempts
      (baseState [] ["ab".data, "cd".data] []) [" x ".data, [] ] (by decide)).2
        0 (by decide)).1⟩

theorem toNat_ofNat_of_isValid {n : Nat} (h : n.isValidChar) :
    (Char.ofNat n).toNat = n := by
  rw [Char.ofNat, dif_pos h]
  rfl

theorem pyIsSpace_pyUpperChar (c : Char) :
    pyIsSpace (pyUpperChar c) = pyIsSpace c := by
  unfold pyUpperChar
  by_cases h : 97 ≤ c.toNat ∧ c.toNat ≤ 122
  · rw [if_pos h]
    unfold pyIsSpace
    rw [toNat_ofNat_of_isValid (Or.inl (by omega))]
    have hL : pyIsSpaceNat (c.toNat - 32) = false := by
      unfold pyIsSpaceNat
      simp only [Bool.or_eq_false_iff, decide_eq_false_iff_not]
      omega
    have hR : pyIsSpaceNat c.toNat = false := by
      unfold pyIsSpaceNat
      simp only [Bool.or_eq_false_iff, decide_eq_false_iff_not]
      omega
    rw [hL, hR]
  · rw [if_neg h]

theorem pyLowerChar_pyUpperChar (c : Char) :
    pyLowerChar (pyUpperChar c) = pyLowerChar c := by
  unfold pyUpperChar pyLowerChar
  by_cases h : 97 ≤ c.toNat ∧ c.toNat ≤ 122
  · rw [if_pos h, toNat_ofNat_of_isValid (Or.inl (by omega))]
    rw [if_pos (by omega : 65 ≤ c.toNat - 32 ∧ c.toNat - 32 ≤ 90)]
    have hn : c.toNat - 32 + 32 = c.toNat := by omega
    rw [hn, Char.ofNat_toNat, if_neg (by omega : ¬ (65 ≤ c.toNat ∧ c.toNat ≤ 90))]
  · rw [if_neg h]

theorem dropWhile_eq_nil_of_all_space (ws : Str)
    (h : ∀ c ∈ ws, pyIsSpace c = true) : ws.dropWhile pyIsSpace = [] := by
  have := @List.dropWhile_append_of_pos _ pyIsSpace ws [] h
  simpa using this

/-- Trimming ignores any whitespace padding around the query. -/
theorem pyStrip_pad (ws1 ws2 s : Str)
    (h1 : ∀ c ∈ ws1, pyIsSpace c = true)
    (h2 : ∀ c ∈ ws2, pyIsSpace c = true) :
    pyStrip (ws1 ++ s ++ ws2) = pyStrip s := by
  unfold pyStrip
  rw [List.append_assoc, List.dropWhile_append_of_pos h1, List.dropWhile_append]
  by_cases he : (s.dropWhile pyIsSpace).isEmpty = true
  · rw [if_pos he, dropWhile_eq_nil_of_all_space ws2 h2]
    have hs : s.dropWhile pyIsSpace = [] := List.isEmpty_iff.mp he
    rw [hs]
  · rw [if_neg he, List.reverse_append,
      List.dropWhile_append_of_pos (fun c hc => h2 c (List.mem_reverse.mp hc))]

/-- Trimming commutes with upper-casing. -/
theorem pyStrip_pyUpper (s : Str) :
    pyStrip (pyUpper s) = pyUpper (pyStrip s) := by
  unfold pyStrip pyUpper
  have hp : (pyIsSpace ∘ pyUpperChar) = pyIsSpace := funext pyIsSpace_pyUpperChar
  rw [List.dropWhile_map, hp, ← List.map_reverse, List.dropWhile_map, hp,
    ← List.map_reverse]

/-- Lower-casing collapses any prior upper-casing. -/
theorem pyLower_pyUpper (s : Str) : pyLower (pyUpper s) = pyLower s := by
  unfold pyLower pyUpper
  rw [List.map_map]
  congr 1
  funext c
  simp only [Function.comp]
  exact pyLowerChar_pyUpperChar c

/-- C5: the forward query is trimmed and lower-cased before lookup, so it
is invariant under whitespace padding and upper-casing; the reverse query
is only trimmed, so it is invariant under whitespace padding. -/
theorem lookup_normalization (d : Dict) (w g ws1 ws2 ws3 ws4 : Str)
    (h1 : ∀ c ∈ ws1, pyIsSpace c = true) (h2 : ∀ c ∈ ws2, pyIsSpace c = true)
    (h3 : ∀ c ∈ ws3, pyIsSpace c = true) (h4 : ∀ c ∈ ws4, pyIsSpace c = true) :
    translate_french_result d (ws1 ++ pyUpper w ++ ws2) =
      translate_french_result d w ∧
    translate_custom_result d (ws3 ++ g ++ ws4) =
      translate_custom_result d g := by
  constructor
  · unfold translate_french_result
    rw [pyStrip_pad ws1 ws2 (pyUpper w) h1 h2, pyStrip_pyUpper, pyLower_pyUpper]
  · unfold translate_custom_result
    rw [pyStrip_pad ws3 ws4 g h3 h4]

theorem lookup_normalization_witness :
    translate_french_result [("sol".data, "#s".data)]
        (" ".data ++ pyUpper "sol".data ++ " ".data) =
      translate_french_result [("sol".data, "#s".data)] "sol".data ∧
    translate_custom_result [("sol".data, "#s".data)]
        (" ".data ++ "#s".data ++ " ".data) =
      translate_custom_result [("sol".data, "#s".data)] "#s".data :=
  lookup_normalization [("sol".data, "#s".data)] "sol".data "#s".data
    " ".data " ".data " ".data " ".data
    (by decide) (by decide) (by decide) (by decide)

/-- States of the Recognition frame reachable through its wired-up user
actions: entering the stage (`show_frame("recognition")`), clicking a
radio button (which carries one of the current round's symbols), clicking
"Aucun symbole reconnu", and clicking Suivant. -/
inductive RecReach : AppState → Prop where
  | enter (base st : AppState) :
      show_recognition base = (st, none) → RecReach st
  | selectOption (st : AppState) (opts : List Str) (s : Str) :
      RecReach st → st.frame = FrameName.recognition →
      st.rounds.get? st.currentRound = some opts → s ∈ opts →
      RecReach (record_choice st s)
  | selectNone (st : AppState) :
      RecReach st → st.frame = FrameName.recognition →
      RecReach (record_choice st noneSentinel)
  | advance (st st' : AppState) :
      RecReach st → st.frame = FrameName.recognition →
      click_next st = (st', none) → RecReach st'

/-- Well-formedness of the recorded choice history: the choice stored at
position i carries the 1-based round index i+1 (so indices are ≥ 1, one
choice per round, appended in round order) and a selection that is either
the `"Aucun"` sentinel or one of round i's option strings. -/
def ChoicesInv (st : AppState) : Prop :=
  ∀ i c, st.recognitionChoices.get? i = some c →
    c.round_index = i + 1 ∧
    (c.selection = noneSentinel ∨
      ∃ opts, st.rounds.get? i = some opts ∧ c.selection ∈ opts)

/-- Auxiliary invariant carried through the induction: the choice history
is well-formed, and while the Recognition frame is the active one the
round index is in range, the history length equals the current round, and
an enabled Next button witnesses a valid pending selection. -/
def RecInvAux (st : AppState) : Prop :=
  ChoicesInv st ∧
  (st.frame = FrameName.recognition →
    st.currentRound < st.rounds.length ∧
    st.recognitionChoices.length = st.currentRound ∧
    (st.nextEnabled = true →
      st.selectionVar = noneSentinel ∨
        ∃ opts, st.rounds.get? st.currentRound = some opts ∧
          st.selectionVar ∈ opts))

/-- The state produced by a successful entry into the Recognition frame. -/
def recognition_entry_state (base : AppState) : AppState :=
  { base with
    recognitionChoices := [], selectionVar := [], currentRound := 0,
    nextEnabled := false, frame := FrameName.recognition }

theorem show_recognition_success (base st : AppState)
    (h : show_recognition base = (st, none)) :
    st = recognition_entry_state base ∧ 0 < base.rounds.length := by
  rcases hr : base.rounds.get? 0 with _ | opts
  · rw [show_recognition, recognition_on_show, render_round] at h
    simp only [hr] at h
    injection h with h1 h2
    cases h2
  · rw [show_recognition, recognition_on_show, render_round] at h
    simp only [hr] at h
    have h0 : 0 < base.rounds.length := by
      cases hb : base.rounds with
      | nil =>
        rw [hb] at hr
        simp at hr
      | cons a l => simp [hb]
    injection h with h1 h2
    exact ⟨h1.symm, h0⟩

theorem show_translation_preserves (st : AppState) :
    (show_translation st).recognitionChoices = st.recognitionChoices ∧
    (show_translation st).rounds = st.rounds ∧
    (show_translation st).frame = FrameName.translation := by
  by_cases h : st.practiceWords.length ≤ 0 <;>
    simp [show_translation, translation_on_show, load_prompt, show_translator,
      translator_on_show, h]

theorem recReach_invAux (st : AppState) (h : RecReach st) : RecInvAux st := by
  induction h with
  | enter base st' hshow =>
    obtain ⟨hst, hpos⟩ := show_recognition_success base st' hshow
    subst hst
    constructor
    · intro i c hc
      simp [recognition_entry_state] at hc
    · intro _
      refine ⟨by simpa [recognition_entry_state] using hpos,
        by simp [recognition_entry_state], ?_⟩
      intro he
      simp [recognition_entry_state] at he
  | selectOption st opts s hre hframe hget hmem ih =>
    obtain ⟨hchoices, hrec⟩ := ih
    obtain ⟨hcur, hlen, _⟩ := hrec hframe
    refine ⟨fun i c hc => hchoices i c (by simpa [record_choice] using hc), ?_⟩
    intro _
    refine ⟨by simpa [record_choice] using hcur,
      by simpa [record_choice] using hlen, ?_⟩
    intro _
    exact Or.inr ⟨opts, by simpa [record_choice] using hget,
      by simpa [record_choice] using hmem⟩
  | selectNone st hre hframe ih =>
    obtain ⟨hchoices, hrec⟩ := ih
    obtain ⟨hcur, hlen, _⟩ := hrec hframe
    refine ⟨fun i c hc => hchoices i c (by simpa [record_choice] using hc), ?_⟩
    intro _
    refine ⟨by simpa [record_choice] using hcur,
      by simpa [record_choice] using hlen, ?_⟩
    intro _
    exact Or.inl rfl
  | advance st st' hre hframe hclick ih =>
    obtain ⟨hchoices, hrec⟩ := ih
    obtain ⟨hcur, hlen, hsel⟩ := hrec hframe
    by_cases hen : st.nextEnabled = true
    · rw [click_next, if_pos hen] at hclick
      have hselok : (if st.selectionVar = [] then noneSentinel
            else st.selectionVar) = noneSentinel ∨
          ∃ opts, st.rounds.get? st.currentRound = some opts ∧
            (if st.selectionVar = [] then noneSentinel
              else st.selectionVar) ∈ opts := by
        by_cases hv : st.selectionVar = []
        · rw [if_pos hv]
          exact Or.inl rfl
        · rw [if_neg hv]
          exact hsel hen
      have hA : ∀ i c,
          (st.recognitionChoices ++
            [({ round_index := st.currentRound + 1,
                selection := if st.selectionVar = [] then noneSentinel
                  else st.selectionVar } : RecognitionChoice)]).get? i =
              some c →
          c.round_index = i + 1 ∧
          (c.selection = noneSentinel ∨
            ∃ opts, st.rounds.get? i = some opts ∧ c.selection ∈ opts) := by
        intro i c hc
        by_cases hi : i < st.recognitionChoices.length
        · rw [List.get?_append hi] at hc
          exact hchoices i c hc
        · obtain ⟨hibound, _⟩ := List.get?_eq_some.mp hc
          rw [List.length_append, List.length_cons, List.length_nil] at hibound
          have hieq : i = st.recognitionChoices.length := by omega
          subst hieq
          rw [List.get?_concat_length] at hc
          injection hc with hc
          subst hc
          refine ⟨?_, ?_⟩
          · show st.currentRound + 1 = st.recognitionChoices.length + 1
            omega
          · rcases hselok with hs | ⟨opts, hopts, hin⟩
            · exact Or.inl hs
            · exact Or.inr ⟨opts, by rw [hlen]; exact hopts, hin⟩
      simp only [next_round] at hclick
      by_cases hlast : st.rounds.length ≤ st.currentRound + 1
      · rw [if_pos hlast] at hclick
        injection hclick with h1 h2
        subst h1
        obtain ⟨hpc, hpr, hpf⟩ := show_translation_preserves
          { st with recognitionChoices := st.recognitionChoices ++
              [({ round_index := st.currentRound + 1,
                  selection := if st.selectionVar = [] then noneSentinel
                    else st.selectionVar } : RecognitionChoice)] }
        constructor
        · intro i c hc
          rw [hpc] at hc
          rw [hpr]
          exact hA i c hc
        · intro hfr
          rw [hpf] at hfr
          cases hfr
      · rw [if_neg hlast, render_round] at hclick
        have hlt : st.currentRound + 1 < st.rounds.length := by omega
        rcases hg : st.rounds.get? (st.currentRound + 1) with _ | opts2
        · rw [List.get?_eq_none] at hg
          omega
        · simp only [hg] at hclick
          injection hclick with h1 h2
          subst h1
          constructor
          · intro i c hc
            exact hA i c hc
          · intro _
            refine ⟨?_, ?_, ?_⟩
            · show st.currentRound + 1 < st.rounds.length
              exact hlt
            · show (st.recognitionChoices ++ _).length = st.currentRound + 1
              rw [List.length_append, List.length_cons, List.length_nil]
              omega
            · intro he
              simp at he
    · rw [click_next, if_neg hen] at hclick
      injection hclick with h1 h2
      subst h1
      exact ⟨hchoices, hrec⟩

/-- C2: in every state reachable through the Recognition stage's user
actions, the recorded choice history is well-formed: the i-th recorded
choice carries round_index i+1 (≥ 1, exactly one choice per round, in
round order, append-only) and a selection that is one of that round's
option strings or the `"Aucun"` sentinel. -/
theorem recognition_choices_wellformed (st : AppState) (h : RecReach st) :
    ChoicesInv st :=
  (recReach_invAux st h).1

def recDemoBase : AppState := baseState [[['a'], ['b']]] [] []

def recDemoSt0 : AppState := (show_recognition recDemoBase).1

def recDemoSt1 : AppState := record_choice recDemoSt0 (['a'] : Str)

def recDemoSt2 : AppState := (click_next recDemoSt1).1

theorem recognition_choices_wellformed_witness : ChoicesInv recDemoSt2 :=
  recognition_choices_wellformed recDemoSt2
    (RecReach.advance recDemoSt1 recDemoSt2
      (RecReach.selectOption recDemoSt0 [['a'], ['b']] ['a']
        (RecReach.enter recDemoBase recDemoSt0 (by decide))
        (by decide) (by decide) (by decide))
      (by decide) (by decide))
